import Mathlib

/-
Verification of the Jacobi Laplace solver embedded in the Manim scene code of
src/main.py (the body of LaplaceScene.construct, generated inside
RenderThread.run).  Grids are modelled as total functions Nat → Nat → ℚ; only
indices below the grid size n are ever read or written by the solver, and all
definitions guard their writes by the slice bounds of the original numpy code.
-/

namespace LaplaceViz

/-- Kind of a boundary edge: fixed value or fixed normal gradient. -/
inductive BCKind where
  | dirichlet
  | neumann
deriving DecidableEq

/-- One boundary edge: a kind together with its numeric value
    (the dict entries bc[edge] = type, value of the scene code). -/
structure BCEdge where
  kind : BCKind
  value : ℚ

/-- The four boundary specs supplied by the GUI (bc dict, line 43). -/
structure BC where
  top : BCEdge
  bottom : BCEdge
  left : BCEdge
  right : BCEdge

/-- A grid of rationals, indexed (row, column); row 0 is the top edge,
    column 0 the left edge.  Cells outside the n by n range are unused. -/
abbrev Grid := Nat → Nat → ℚ

/-- A boolean mask over the grid. -/
abbrev Mask := Nat → Nat → Bool

/-- The all-zero grid (np.zeros((n, n)), line 40). -/
def zeroGrid : Grid := fun _ _ => 0

/-- Write value v into every cell of row r (u[r, :] = v). -/
def setRow (n r : Nat) (v : ℚ) (g : Grid) : Grid :=
  fun i j => if i = r ∧ j < n then v else g i j

/-- Write value v into every cell of column c (u[:, c] = v). -/
def setCol (n c : Nat) (v : ℚ) (g : Grid) : Grid :=
  fun i j => if j = c ∧ i < n then v else g i j

/-- Mark every cell of row r in a mask (boundary_mask[r, :] = True). -/
def maskRow (n r : Nat) (m : Mask) : Mask :=
  fun i j => if i = r ∧ j < n then true else m i j

/-- Mark every cell of column c in a mask (boundary_mask[:, c] = True). -/
def maskCol (n c : Nat) (m : Mask) : Mask :=
  fun i j => if j = c ∧ i < n then true else m i j

/-- Apply a transformation only when a condition holds, mirroring the
    if statements guarding each edge in the scene code. -/
def condApply {α : Type} (b : Prop) [Decidable b] (f : α → α) (x : α) : α :=
  if b then f x else x

/-- Initial grid: zeros, with each Dirichlet edge stamped in the source
    order top, bottom, left, right (lines 40 and 46-54). -/
def initialGrid (n : Nat) (bc : BC) : Grid :=
  condApply (bc.right.kind = BCKind.dirichlet) (setCol n (n-1) bc.right.value)
    (condApply (bc.left.kind = BCKind.dirichlet) (setCol n 0 bc.left.value)
      (condApply (bc.bottom.kind = BCKind.dirichlet) (setRow n (n-1) bc.bottom.value)
        (condApply (bc.top.kind = BCKind.dirichlet) (setRow n 0 bc.top.value)
          zeroGrid)))

/-- The BoundaryMask: true exactly on rows and columns of Dirichlet edges,
    built in the source order top, bottom, left, right (lines 59-67). -/
def boundaryMask (n : Nat) (bc : BC) : Mask :=
  condApply (bc.right.kind = BCKind.dirichlet) (maskCol n (n-1))
    (condApply (bc.left.kind = BCKind.dirichlet) (maskCol n 0)
      (condApply (bc.bottom.kind = BCKind.dirichlet) (maskRow n (n-1))
        (condApply (bc.top.kind = BCKind.dirichlet) (maskRow n 0)
          (fun _ _ => false))))

/-- The interior Jacobi sweep (lines 205-211): u_new starts as a copy of u,
    and every interior cell with 1 ≤ i, j ≤ n-2 not marked in the mask is
    replaced by 0.25 times the sum of its four axis neighbours, all read
    from the previous grid u. -/
def jacobiInterior (n : Nat) (mask : Mask) (u : Grid) : Grid :=
  fun i j =>
    if 1 ≤ i ∧ i ≤ n-2 ∧ 1 ≤ j ∧ j ≤ n-2 ∧ mask i j = false then
      (1/4 : ℚ) * (u (i+1) j + u (i-1) j + u i (j+1) + u i (j-1))
    else u i j

/-- Neumann update of the top edge (line 216):
    u_new[0, 1:-1] = u_new[1, 1:-1] + value. -/
def neumannRowTop (n : Nat) (v : ℚ) (g : Grid) : Grid :=
  fun i j => if i = 0 ∧ 1 ≤ j ∧ j ≤ n-2 then g 1 j + v else g i j

/-- Neumann update of the bottom edge (line 218):
    u_new[-1, 1:-1] = u_new[-2, 1:-1] - value. -/
def neumannRowBottom (n : Nat) (v : ℚ) (g : Grid) : Grid :=
  fun i j => if i = n-1 ∧ 1 ≤ j ∧ j ≤ n-2 then g (n-2) j - v else g i j

/-- Neumann update of the left edge (line 220):
    u_new[1:-1, 0] = u_new[1:-1, 1] + value. -/
def neumannColLeft (n : Nat) (v : ℚ) (g : Grid) : Grid :=
  fun i j => if j = 0 ∧ 1 ≤ i ∧ i ≤ n-2 then g i 1 + v else g i j

/-- Neumann update of the right edge (line 222):
    u_new[1:-1, -1] = u_new[1:-1, -2] - value. -/
def neumannColRight (n : Nat) (v : ℚ) (g : Grid) : Grid :=
  fun i j => if j = n-1 ∧ 1 ≤ i ∧ i ≤ n-2 then g i (n-2) - v else g i j

/-- The Neumann boundary pass (lines 214-222), applied to the post-Jacobi
    grid in the source order top, bottom, left, right; each edge fires only
    when its kind is neumann, and each reads the grid as left by the
    previous writes. -/
def applyNeumann (n : Nat) (bc : BC) (g : Grid) : Grid :=
  condApply (bc.right.kind = BCKind.neumann) (neumannColRight n bc.right.value)
    (condApply (bc.left.kind = BCKind.neumann) (neumannColLeft n bc.left.value)
      (condApply (bc.bottom.kind = BCKind.neumann) (neumannRowBottom n bc.bottom.value)
        (condApply (bc.top.kind = BCKind.neumann) (neumannRowTop n bc.top.value)
          g)))

/-- One full iteration of the loop body producing u_new from u:
    Jacobi sweep over the interior, then the Neumann boundary pass. -/
def step (n : Nat) (bc : BC) (mask : Mask) (u : Grid) : Grid :=
  applyNeumann n bc (jacobiInterior n mask u)

/-- Absolute value on the rationals, written so that the kernel can
    evaluate it on concrete inputs; proved equal to the Mathlib absolute
    value below. -/
def qabs (a : ℚ) : ℚ := if 0 ≤ a then a else -a

/-- Binary maximum on the rationals, written so that the kernel can
    evaluate it on concrete inputs; proved equal to the Mathlib max
    below. -/
def qmax (a b : ℚ) : ℚ := if a ≤ b then b else a

theorem qabs_eq_abs (a : ℚ) : qabs a = |a| := by
  unfold qabs
  rcases le_or_lt 0 a with h | h
  · rw [if_pos h, abs_of_nonneg h]
  · rw [if_neg (not_le.mpr h), abs_of_neg h]

theorem qmax_eq_max (a b : ℚ) : qmax a b = max a b := (max_def a b).symm

instance : Std.Commutative qmax :=
  ⟨fun a b => by rw [qmax_eq_max, qmax_eq_max, max_comm]⟩

instance : Std.Associative qmax :=
  ⟨fun a b c => by rw [qmax_eq_max, qmax_eq_max, qmax_eq_max, qmax_eq_max, max_assoc]⟩

/-- max_change = np.max(np.abs(u_new - u)) (line 227), as a fold of max
    over all cells, seeded with 0.  Every folded entry is an absolute
    value, hence nonnegative, so for a nonempty grid the seed 0 never
    exceeds the true numpy maximum and the fold equals it. -/
def maxChange (n : Nat) (uNew u : Grid) : ℚ :=
  ((Finset.range n) ×ˢ (Finset.range n)).fold qmax 0
    (fun p => qabs (uNew p.1 p.2 - u p.1 p.2))

/-- Terminal output of the solver: final grid, convergence flag, number of
    completed iterations, and the per-iteration max-change history. -/
structure SolverResult where
  grid : Grid
  converged : Bool
  iterationsRun : Nat
  history : List ℚ

/-- The iteration loop (lines 204-260), parametric in the per-iteration
    grid transformer.  fuel counts the remaining loop indices, iter is the
    current zero-based iteration index, hist the history so far.  When the
    convergence test max_change < tolerance and iteration > 10 passes, the
    loop stops with converged true and final_iteration = iteration + 1;
    when the fuel runs out the loop has executed exactly iter iterations
    and reports converged false. -/
def runLoop (n : Nat) (stepF : Grid → Grid) (tol : ℚ) :
    Nat → Nat → Grid → List ℚ → SolverResult
  | 0, iter, u, hist =>
      { grid := u, converged := false, iterationsRun := iter, history := hist }
  | fuel+1, iter, u, hist =>
      let uNew := stepF u
      let mc := maxChange n uNew u
      if mc < tol ∧ 10 < iter then
        { grid := uNew, converged := true, iterationsRun := iter + 1,
          history := hist ++ [mc] }
      else
        runLoop n stepF tol fuel (iter + 1) uNew (hist ++ [mc])

/-- The solver: stamp the initial grid and mask, then iterate the loop
    body for at most maxIter iterations starting at index 0. -/
def solve (n : Nat) (bc : BC) (tol : ℚ) (maxIter : Nat) : SolverResult :=
  runLoop n (step n bc (boundaryMask n bc)) tol maxIter 0 (initialGrid n bc) []

/-- The grid after k completed iterations, starting from the stamped grid. -/
def iterGrid (n : Nat) (bc : BC) : Nat → Grid
  | 0 => initialGrid n bc
  | k+1 => step n bc (boundaryMask n bc) (iterGrid n bc k)

/-- The max-change recorded by iteration index k (zero-based). -/
def mcAt (n : Nat) (bc : BC) (k : Nat) : ℚ :=
  maxChange n (iterGrid n bc (k+1)) (iterGrid n bc k)

/-- The interior Jacobi sweep with the BoundaryMask test removed, the
    comparison point for the refinement claim that the mask test inside
    the interior loop is vacuous. -/
def jacobiInteriorFree (n : Nat) (u : Grid) : Grid :=
  fun i j =>
    if 1 ≤ i ∧ i ≤ n-2 ∧ 1 ≤ j ∧ j ≤ n-2 then
      (1/4 : ℚ) * (u (i+1) j + u (i-1) j + u i (j+1) + u i (j-1))
    else u i j

/-- One iteration of the mask-free variant. -/
def stepFree (n : Nat) (bc : BC) (u : Grid) : Grid :=
  applyNeumann n bc (jacobiInteriorFree n u)

/-- The solver variant whose interior loop performs no mask test. -/
def solveFree (n : Nat) (bc : BC) (tol : ℚ) (maxIter : Nat) : SolverResult :=
  runLoop n (stepFree n bc) tol maxIter 0 (initialGrid n bc) []

/-- Example boundary configuration: all four edges Dirichlet 0. -/
def bcZero : BC :=
  ⟨⟨BCKind.dirichlet, 0⟩, ⟨BCKind.dirichlet, 0⟩, ⟨BCKind.dirichlet, 0⟩, ⟨BCKind.dirichlet, 0⟩⟩

/-- Example boundary configuration: all four edges Dirichlet at the same
    value 4. -/
def bcFour : BC :=
  ⟨⟨BCKind.dirichlet, 4⟩, ⟨BCKind.dirichlet, 4⟩, ⟨BCKind.dirichlet, 4⟩, ⟨BCKind.dirichlet, 4⟩⟩

/-- All four edges Dirichlet at a common value V. -/
def bcAllD (V : ℚ) : BC :=
  ⟨⟨BCKind.dirichlet, V⟩, ⟨BCKind.dirichlet, V⟩, ⟨BCKind.dirichlet, V⟩, ⟨BCKind.dirichlet, V⟩⟩

/-- Example boundary configuration: top Neumann with gradient 1, the other
    three edges Dirichlet 0. -/
def bcTopNeu : BC :=
  ⟨⟨BCKind.neumann, 1⟩, ⟨BCKind.dirichlet, 0⟩, ⟨BCKind.dirichlet, 0⟩, ⟨BCKind.dirichlet, 0⟩⟩

/-- Example boundary configuration: top Neumann gradient 1 and left Neumann
    gradient 2 sharing the corner (0,0); bottom and right Dirichlet 0. -/
def bcTopLeftNeu : BC :=
  ⟨⟨BCKind.neumann, 1⟩, ⟨BCKind.dirichlet, 0⟩, ⟨BCKind.neumann, 2⟩, ⟨BCKind.dirichlet, 0⟩⟩

/-- Example boundary configuration: all four edges Neumann. -/
def bcAllNeu : BC :=
  ⟨⟨BCKind.neumann, 1⟩, ⟨BCKind.neumann, 2⟩, ⟨BCKind.neumann, 3⟩, ⟨BCKind.neumann, 4⟩⟩

/-- Example boundary configuration: top Dirichlet 5, others Dirichlet 0. -/
def bcTopFive : BC :=
  ⟨⟨BCKind.dirichlet, 5⟩, ⟨BCKind.dirichlet, 0⟩, ⟨BCKind.dirichlet, 0⟩, ⟨BCKind.dirichlet, 0⟩⟩

/-- Example grid with pairwise different values at the small indices. -/
def gEx : Grid := fun i j => (i : ℚ) * 10 + (j : ℚ)

theorem condApply_point {β : Type} (b : Prop) [Decidable b]
    (f : (Nat → Nat → β) → (Nat → Nat → β)) (g : Nat → Nat → β) (i j : Nat)
    (h : b → f g i j = g i j) : condApply b f g i j = g i j := by
  unfold condApply
  split
  · exact h (by assumption)
  · rfl

theorem neumannRowTop_skip (n : Nat) (v : ℚ) (g : Grid) (i j : Nat)
    (h : ¬(i = 0 ∧ 1 ≤ j ∧ j ≤ n-2)) : neumannRowTop n v g i j = g i j := by
  unfold neumannRowTop
  exact if_neg h

theorem neumannRowBottom_skip (n : Nat) (v : ℚ) (g : Grid) (i j : Nat)
    (h : ¬(i = n-1 ∧ 1 ≤ j ∧ j ≤ n-2)) : neumannRowBottom n v g i j = g i j := by
  unfold neumannRowBottom
  exact if_neg h

theorem neumannColLeft_skip (n : Nat) (v : ℚ) (g : Grid) (i j : Nat)
    (h : ¬(j = 0 ∧ 1 ≤ i ∧ i ≤ n-2)) : neumannColLeft n v g i j = g i j := by
  unfold neumannColLeft
  exact if_neg h

theorem neumannColRight_skip (n : Nat) (v : ℚ) (g : Grid) (i j : Nat)
    (h : ¬(j = n-1 ∧ 1 ≤ i ∧ i ≤ n-2)) : neumannColRight n v g i j = g i j := by
  unfold neumannColRight
  exact if_neg h

/-- The BoundaryMask holds exactly at cells of Dirichlet edge rows and
    columns. -/
theorem boundaryMask_true_iff (n : Nat) (bc : BC) (i j : Nat) :
    boundaryMask n bc i j = true ↔
      (bc.top.kind = BCKind.dirichlet ∧ i = 0 ∧ j < n) ∨
      (bc.bottom.kind = BCKind.dirichlet ∧ i = n-1 ∧ j < n) ∨
      (bc.left.kind = BCKind.dirichlet ∧ j = 0 ∧ i < n) ∨
      (bc.right.kind = BCKind.dirichlet ∧ j = n-1 ∧ i < n) := by
  unfold boundaryMask condApply maskRow maskCol
  split_ifs <;> simp_all <;> tauto

/-- Interior cells are never marked in the BoundaryMask. -/
theorem boundaryMask_interior_false (n : Nat) (bc : BC) (i j : Nat)
    (hi1 : 1 ≤ i) (hi2 : i ≤ n-2) (hj1 : 1 ≤ j) (hj2 : j ≤ n-2) :
    boundaryMask n bc i j = false := by
  rw [Bool.eq_false_iff]
  intro h
  rw [boundaryMask_true_iff] at h
  rcases h with ⟨_, h1, h2⟩ | ⟨_, h1, h2⟩ | ⟨_, h1, h2⟩ | ⟨_, h1, h2⟩ <;> omega

theorem jacobiInterior_masked (n : Nat) (mask : Mask) (u : Grid) (i j : Nat)
    (h : mask i j = true) : jacobiInterior n mask u i j = u i j := by
  unfold jacobiInterior
  rw [if_neg]
  simp [h]

theorem jacobiInterior_boundary (n : Nat) (mask : Mask) (u : Grid) (i j : Nat)
    (h : ¬(1 ≤ i ∧ i ≤ n-2 ∧ 1 ≤ j ∧ j ≤ n-2)) :
    jacobiInterior n mask u i j = u i j := by
  unfold jacobiInterior
  rw [if_neg]
  tauto

theorem jacobiInterior_mean (n : Nat) (mask : Mask) (u : Grid) (i j : Nat)
    (hi1 : 1 ≤ i) (hi2 : i ≤ n-2) (hj1 : 1 ≤ j) (hj2 : j ≤ n-2)
    (hm : mask i j = false) :
    jacobiInterior n mask u i j =
      (1/4 : ℚ) * (u (i+1) j + u (i-1) j + u i (j+1) + u i (j-1)) := by
  unfold jacobiInterior
  rw [if_pos ⟨hi1, hi2, hj1, hj2, hm⟩]

/-- The Neumann pass never writes a cell that lies outside all four edge
    slices. -/
theorem applyNeumann_skip (n : Nat) (bc : BC) (g : Grid) (i j : Nat)
    (h1 : ¬(i = 0 ∧ 1 ≤ j ∧ j ≤ n-2)) (h2 : ¬(i = n-1 ∧ 1 ≤ j ∧ j ≤ n-2))
    (h3 : ¬(j = 0 ∧ 1 ≤ i ∧ i ≤ n-2)) (h4 : ¬(j = n-1 ∧ 1 ≤ i ∧ i ≤ n-2)) :
    applyNeumann n bc g i j = g i j := by
  unfold applyNeumann
  rw [condApply_point _ _ _ i j (fun _ => neumannColRight_skip n _ _ i j h4),
      condApply_point _ _ _ i j (fun _ => neumannColLeft_skip n _ _ i j h3),
      condApply_point _ _ _ i j (fun _ => neumannRowBottom_skip n _ _ i j h2),
      condApply_point _ _ _ i j (fun _ => neumannRowTop_skip n _ _ i j h1)]

/-- The Neumann pass never writes an interior cell. -/
theorem applyNeumann_interior (n : Nat) (bc : BC) (g : Grid) (i j : Nat)
    (hi1 : 1 ≤ i) (hi2 : i ≤ n-2) (hj1 : 1 ≤ j) (hj2 : j ≤ n-2) :
    applyNeumann n bc g i j = g i j := by
  apply applyNeumann_skip <;> omega

/-- The Neumann pass never writes any of the four corner cells. -/
theorem applyNeumann_corner (n : Nat) (bc : BC) (g : Grid) (i j : Nat)
    (hi : i = 0 ∨ i = n-1) (hj : j = 0 ∨ j = n-1) :
    applyNeumann n bc g i j = g i j := by
  apply applyNeumann_skip <;> rcases hi with hi | hi <;> rcases hj with hj | hj <;> omega

theorem kind_clash {k : BCKind} (h1 : k = BCKind.dirichlet)
    (h2 : k = BCKind.neumann) : False := by
  rw [h1] at h2
  exact BCKind.noConfusion h2

/-- The Neumann pass never writes a Dirichlet-masked cell. -/
theorem applyNeumann_masked (n : Nat) (bc : BC) (g : Grid) (i j : Nat)
    (hm : boundaryMask n bc i j = true) : applyNeumann n bc g i j = g i j := by
  rw [boundaryMask_true_iff] at hm
  unfold applyNeumann
  rcases hm with ⟨hk, h1, h2⟩ | ⟨hk, h1, h2⟩ | ⟨hk, h1, h2⟩ | ⟨hk, h1, h2⟩ <;>
    rw [condApply_point _ _ _ i j (fun hneu => by
          first
            | exact (kind_clash hk hneu).elim
            | exact neumannColRight_skip n _ _ i j (by omega)),
        condApply_point _ _ _ i j (fun hneu => by
          first
            | exact (kind_clash hk hneu).elim
            | exact neumannColLeft_skip n _ _ i j (by omega)),
        condApply_point _ _ _ i j (fun hneu => by
          first
            | exact (kind_clash hk hneu).elim
            | exact neumannRowBottom_skip n _ _ i j (by omega)),
        condApply_point _ _ _ i j (fun hneu => by
          first
            | exact (kind_clash hk hneu).elim
            | exact neumannRowTop_skip n _ _ i j (by omega))]

/-- One iteration leaves every Dirichlet-masked cell unchanged. -/
theorem step_masked (n : Nat) (bc : BC) (u : Grid) (i j : Nat)
    (hm : boundaryMask n bc i j = true) :
    step n bc (boundaryMask n bc) u i j = u i j := by
  unfold step
  rw [applyNeumann_masked n bc _ i j hm, jacobiInterior_masked n _ u i j hm]

/-- One iteration leaves every corner cell unchanged. -/
theorem step_corner (n : Nat) (bc : BC) (mask : Mask) (u : Grid) (i j : Nat)
    (hi : i = 0 ∨ i = n-1) (hj : j = 0 ∨ j = n-1) :
    step n bc mask u i j = u i j := by
  unfold step
  rw [applyNeumann_corner n bc _ i j hi hj,
      jacobiInterior_boundary n mask u i j (by rcases hi with h | h <;> rcases hj with h' | h' <;> omega)]

/-- Grids smaller than 3 have no interior and no Neumann slice cells, so an
    iteration changes nothing at all. -/
theorem step_small (n : Nat) (bc : BC) (mask : Mask) (u : Grid) (i j : Nat)
    (hn : n < 3) : step n bc mask u i j = u i j := by
  unfold step
  rw [applyNeumann_skip n bc _ i j (by omega) (by omega) (by omega) (by omega),
      jacobiInterior_boundary n mask u i j (by omega)]

/-- Evaluation of one iteration at an interior cell: Dirichlet-masked
    interior cells are copied forward, all other interior cells receive the
    mean of their four axis neighbours in the previous grid. -/
theorem step_interior (n : Nat) (bc : BC) (u : Grid) (i j : Nat)
    (hi1 : 1 ≤ i) (hi2 : i ≤ n-2) (hj1 : 1 ≤ j) (hj2 : j ≤ n-2) :
    step n bc (boundaryMask n bc) u i j =
      if boundaryMask n bc i j = true then u i j
      else (1/4 : ℚ) * (u (i+1) j + u (i-1) j + u i (j+1) + u i (j-1)) := by
  unfold step
  rw [applyNeumann_interior n bc _ i j hi1 hi2 hj1 hj2]
  cases hm : boundaryMask n bc i j with
  | true => rw [if_pos rfl, jacobiInterior_masked n _ u i j hm]
  | false => rw [if_neg (by simp), jacobiInterior_mean n _ u i j hi1 hi2 hj1 hj2 hm]

theorem fold_qmax_eq_fold_max (s : Finset (Nat × Nat)) (b : ℚ)
    (f : Nat × Nat → ℚ) : s.fold qmax b f = s.fold max b f := by
  induction s using Finset.cons_induction with
  | empty => rfl
  | cons a s ha ih => rw [Finset.fold_cons, Finset.fold_cons, ih, qmax_eq_max]

/-- The recorded max-change is never negative. -/
theorem maxChange_nonneg (n : Nat) (uNew u : Grid) : 0 ≤ maxChange n uNew u := by
  rw [maxChange, fold_qmax_eq_fold_max]
  exact (Finset.le_fold_max 0).mpr (Or.inl le_rfl)

/-- Any cellwise absolute difference is bounded by the max-change. -/
theorem le_maxChange (n : Nat) (uNew u : Grid) (i j : Nat)
    (hi : i < n) (hj : j < n) :
    |uNew i j - u i j| ≤ maxChange n uNew u := by
  rw [maxChange, fold_qmax_eq_fold_max]
  refine (Finset.le_fold_max _).mpr (Or.inr ⟨(i, j), ?_, ?_⟩)
  · rw [Finset.mem_product, Finset.mem_range, Finset.mem_range]
    exact ⟨hi, hj⟩
  · rw [qabs_eq_abs]

/-- The max-change is bounded by any bound on the cellwise differences. -/
theorem maxChange_le (n : Nat) (uNew u : Grid) (c : ℚ) (hc : 0 ≤ c)
    (h : ∀ i j, i < n → j < n → |uNew i j - u i j| ≤ c) :
    maxChange n uNew u ≤ c := by
  rw [maxChange, fold_qmax_eq_fold_max]
  refine (Finset.fold_max_le c).mpr ⟨hc, ?_⟩
  intro p hp
  rw [Finset.mem_product, Finset.mem_range, Finset.mem_range] at hp
  rw [qabs_eq_abs]
  exact h p.1 p.2 hp.1 hp.2

/-- Two grids that agree on every cell of the domain have max-change 0. -/
theorem maxChange_eq_zero (n : Nat) (uNew u : Grid)
    (h : ∀ i j, i < n → j < n → uNew i j = u i j) :
    maxChange n uNew u = 0 := by
  refine le_antisymm (maxChange_le n uNew u 0 le_rfl ?_) (maxChange_nonneg n uNew u)
  intro i j hi hj
  rw [h i j hi hj, sub_self, abs_zero]

theorem iterGrid_eq_iterate (n : Nat) (bc : BC) (k : Nat) :
    iterGrid n bc k = (step n bc (boundaryMask n bc))^[k] (initialGrid n bc) := by
  induction k with
  | zero => rfl
  | succ k ih =>
      rw [Function.iterate_succ_apply']
      unfold iterGrid
      rw [ih]

/-- Bookkeeping invariants of the loop: the final iteration count lies
    between the starting index and the starting index plus the fuel, a run
    that did not converge used all its fuel, and each executed iteration
    appended exactly one history entry. -/
theorem runLoop_count (n : Nat) (stepF : Grid → Grid) (tol : ℚ) :
    ∀ (fuel iter : Nat) (u : Grid) (hist : List ℚ),
      iter ≤ (runLoop n stepF tol fuel iter u hist).iterationsRun ∧
      (runLoop n stepF tol fuel iter u hist).iterationsRun ≤ iter + fuel ∧
      ((runLoop n stepF tol fuel iter u hist).converged = false →
        (runLoop n stepF tol fuel iter u hist).iterationsRun = iter + fuel) ∧
      (runLoop n stepF tol fuel iter u hist).history.length =
        hist.length + ((runLoop n stepF tol fuel iter u hist).iterationsRun - iter) := by
  intro fuel
  induction fuel with
  | zero =>
      intro iter u hist
      simp [runLoop]
  | succ fuel ih =>
      intro iter u hist
      simp only [runLoop]
      by_cases h : maxChange n (stepF u) u < tol ∧ 10 < iter
      · rw [if_pos h]
        dsimp only
        refine ⟨by omega, by omega, fun hc => by simp at hc, ?_⟩
        simp
      · rw [if_neg h]
        obtain ⟨ih1, ih2, ih3, ih4⟩ := ih (iter + 1) (stepF u) (hist ++ [maxChange n (stepF u) u])
        refine ⟨by omega, by omega, fun hc => by rw [ih3 hc]; omega, ?_⟩
        rw [ih4]
        simp
        omega

/-- Any property of the grid preserved by one iteration holds for the final
    grid of the loop whenever it holds for the starting grid. -/
theorem runLoop_grid_invariant (n : Nat) (stepF : Grid → Grid) (tol : ℚ)
    (Q : Grid → Prop) (hQ : ∀ g, Q g → Q (stepF g)) :
    ∀ (fuel iter : Nat) (u : Grid) (hist : List ℚ), Q u →
      Q (runLoop n stepF tol fuel iter u hist).grid := by
  intro fuel
  induction fuel with
  | zero =>
      intro iter u hist hu
      simpa [runLoop] using hu
  | succ fuel ih =>
      intro iter u hist hu
      simp only [runLoop]
      by_cases h : maxChange n (stepF u) u < tol ∧ 10 < iter
      · rw [if_pos h]
        exact hQ u hu
      · rw [if_neg h]
        exact ih (iter + 1) (stepF u) _ (hQ u hu)

/-- Characterization of convergence: starting the loop at iteration index
    iter on the grid reached after iter iterations, the loop converges
    exactly when some in-range iteration index k satisfies the test
    max-change below tolerance and k above 10, and in that case the
    reported iteration count is k + 1 for such a k. -/
theorem runLoop_conv (n : Nat) (stepF : Grid → Grid) (tol : ℚ) (g0 : Grid) :
    ∀ (fuel iter : Nat) (hist : List ℚ),
      ((runLoop n stepF tol fuel iter (stepF^[iter] g0) hist).converged = true ↔
        ∃ k, iter ≤ k ∧ k < iter + fuel ∧ 10 < k ∧
          maxChange n (stepF^[k+1] g0) (stepF^[k] g0) < tol) ∧
      ((runLoop n stepF tol fuel iter (stepF^[iter] g0) hist).converged = true →
        ∃ k, iter ≤ k ∧ k < iter + fuel ∧ 10 < k ∧
          maxChange n (stepF^[k+1] g0) (stepF^[k] g0) < tol ∧
          (runLoop n stepF tol fuel iter (stepF^[iter] g0) hist).iterationsRun
            = k + 1) := by
  intro fuel
  induction fuel with
  | zero =>
      intro iter hist
      constructor
      · simp only [runLoop]
        constructor
        · intro hc
          exact absurd hc (by simp)
        · rintro ⟨k, hk1, hk2, -, -⟩
          omega
      · intro hc
        exact absurd hc (by simp [runLoop])
  | succ fuel ih =>
      intro iter hist
      have hsucc : stepF (stepF^[iter] g0) = stepF^[iter+1] g0 :=
        (Function.iterate_succ_apply' stepF iter g0).symm
      simp only [runLoop]
      by_cases h : maxChange n (stepF (stepF^[iter] g0)) (stepF^[iter] g0) < tol ∧ 10 < iter
      · rw [if_pos h]
        have hmc : maxChange n (stepF^[iter+1] g0) (stepF^[iter] g0) < tol := by
          rw [← hsucc]
          exact h.1
        constructor
        · constructor
          · intro _
            exact ⟨iter, le_rfl, by omega, h.2, hmc⟩
          · intro _
            rfl
        · intro _
          exact ⟨iter, le_rfl, by omega, h.2, hmc, rfl⟩
      · rw [if_neg h]
        rw [hsucc]
        obtain ⟨ih1, ih2⟩ := ih (iter + 1)
          (hist ++ [maxChange n (stepF^[iter+1] g0) (stepF^[iter] g0)])
        constructor
        · rw [ih1]
          constructor
          · rintro ⟨k, hk1, hk2, hk3, hk4⟩
            exact ⟨k, by omega, by omega, hk3, hk4⟩
          · rintro ⟨k, hk1, hk2, hk3, hk4⟩
            rcases Nat.eq_or_lt_of_le hk1 with he | hl
            · exfalso
              apply h
              constructor
              · rw [hsucc, he]
                exact hk4
              · rw [he]
                exact hk3
            · exact ⟨k, by omega, by omega, hk3, hk4⟩
        · intro hc
          obtain ⟨k, hk1, hk2, hk3, hk4, hk5⟩ := ih2 hc
          exact ⟨k, by omega, by omega, hk3, hk4, hk5⟩

/-- The mask-free interior sweep coincides with the masked one, because the
    mask is false at every interior cell. -/
theorem jacobiInteriorFree_eq (n : Nat) (bc : BC) (u : Grid) :
    jacobiInteriorFree n u = jacobiInterior n (boundaryMask n bc) u := by
  funext i j
  by_cases hC : 1 ≤ i ∧ i ≤ n-2 ∧ 1 ≤ j ∧ j ≤ n-2
  · obtain ⟨h1, h2, h3, h4⟩ := hC
    have hm := boundaryMask_interior_false n bc i j h1 h2 h3 h4
    show (if 1 ≤ i ∧ i ≤ n-2 ∧ 1 ≤ j ∧ j ≤ n-2 then
      (1/4 : ℚ) * (u (i+1) j + u (i-1) j + u i (j+1) + u i (j-1)) else u i j) = _
    rw [if_pos ⟨h1, h2, h3, h4⟩, jacobiInterior_mean n _ u i j h1 h2 h3 h4 hm]
  · show (if 1 ≤ i ∧ i ≤ n-2 ∧ 1 ≤ j ∧ j ≤ n-2 then
      (1/4 : ℚ) * (u (i+1) j + u (i-1) j + u i (j+1) + u i (j-1)) else u i j) = _
    rw [if_neg hC, jacobiInterior_boundary n _ u i j hC]

theorem stepFree_eq_step (n : Nat) (bc : BC) :
    stepFree n bc = step n bc (boundaryMask n bc) := by
  funext u
  unfold stepFree step
  rw [jacobiInteriorFree_eq n bc u]

/-- C1: in every iteration, each interior cell (i,j) with 1 ≤ i,j ≤ n-2 not
    marked Dirichlet in the BoundaryMask receives in the new grid exactly
    the arithmetic mean of its four axis neighbours read from the previous
    iteration grid (synchronous Jacobi update), while interior cells marked
    Dirichlet are copied forward unchanged. -/
theorem c1_interior_jacobi_update (n : Nat) (bc : BC) (k i j : Nat)
    (hi1 : 1 ≤ i) (hi2 : i ≤ n-2) (hj1 : 1 ≤ j) (hj2 : j ≤ n-2) :
    iterGrid n bc (k+1) i j =
      if boundaryMask n bc i j = true then iterGrid n bc k i j
      else (1/4 : ℚ) * (iterGrid n bc k (i+1) j + iterGrid n bc k (i-1) j +
        iterGrid n bc k i (j+1) + iterGrid n bc k i (j-1)) :=
  step_interior n bc (iterGrid n bc k) i j hi1 hi2 hj1 hj2

set_option maxRecDepth 8000 in
/-- Witness for C1 at a concrete input: grid size 3, top Dirichlet 5, the
    single interior cell (1,1) after one iteration holds the mean 5/4. -/
theorem c1_interior_jacobi_update_witness :
    iterGrid 3 bcTopFive 1 1 1 = (5/4 : ℚ) := by
  have h := c1_interior_jacobi_update 3 bcTopFive 0 1 1
    (by omega) (by omega) (by omega) (by omega)
  rw [h]
  with_unfolding_all decide

/-- C3: every cell the BoundaryMask marks Dirichlet holds its stamped
    boundary value through every iteration and in the final grid of solve;
    no iteration step ever changes a Dirichlet-masked cell. -/
theorem c3_dirichlet_cells_invariant (n : Nat) (bc : BC) (tol : ℚ)
    (maxIter : Nat) (i j : Nat) (hm : boundaryMask n bc i j = true) :
    (∀ k, iterGrid n bc k i j = initialGrid n bc i j) ∧
    (solve n bc tol maxIter).grid i j = initialGrid n bc i j := by
  have hstep : ∀ g : Grid, g i j = initialGrid n bc i j →
      step n bc (boundaryMask n bc) g i j = initialGrid n bc i j := by
    intro g hg
    rw [step_masked n bc g i j hm, hg]
  constructor
  · intro k
    induction k with
    | zero => rfl
    | succ k ih =>
        show step n bc (boundaryMask n bc) (iterGrid n bc k) i j = _
        exact hstep _ ih
  · exact runLoop_grid_invariant n _ tol (fun g => g i j = initialGrid n bc i j)
      hstep maxIter 0 (initialGrid n bc) [] rfl

/-- Witness for C3 at a concrete input: with top Dirichlet 5 on a 3 by 3
    grid, the final grid of solve still holds 5 at cell (0,1). -/
theorem c3_dirichlet_cells_invariant_witness :
    (solve 3 bcTopFive 1 20).grid 0 1 = 5 := by
  have h := (c3_dirichlet_cells_invariant 3 bcTopFive 1 20 0 1 (by decide)).2
  rw [h]
  with_unfolding_all decide

/-- C8: iterations_run never exceeds max_iterations, equals max_iterations
    whenever the run did not converge, and the convergence history holds
    exactly one entry per completed iteration. -/
theorem c8_iteration_count_and_history (n : Nat) (bc : BC) (tol : ℚ)
    (maxIter : Nat) :
    (solve n bc tol maxIter).iterationsRun ≤ maxIter ∧
    ((solve n bc tol maxIter).converged = false →
      (solve n bc tol maxIter).iterationsRun = maxIter) ∧
    (solve n bc tol maxIter).history.length =
      (solve n bc tol maxIter).iterationsRun := by
  unfold solve
  obtain ⟨h1, h2, h3, h4⟩ :=
    runLoop_count n (step n bc (boundaryMask n bc)) tol maxIter 0
      (initialGrid n bc) []
  refine ⟨by omega, fun hc => by have := h3 hc; omega, ?_⟩
  simp only [List.length_nil, Nat.zero_add, Nat.sub_zero] at h4
  omega

set_option maxRecDepth 8000 in
/-- Witness for C8 at a concrete input: a short unconverged run uses the
    full iteration cap. -/
theorem c8_iteration_count_and_history_witness :
    (solve 3 bcTopFive (1/10) 2).iterationsRun = 2 := by
  have h := c8_iteration_count_and_history 3 bcTopFive (1/10) 2
  exact h.2.1 (by with_unfolding_all decide)

/-- C9: the solver is a pure function of its four inputs: identical inputs
    produce identical final grid, convergence flag, iteration count and
    history. -/
theorem c9_deterministic (n1 n2 : Nat) (bc1 bc2 : BC) (tol1 tol2 : ℚ)
    (m1 m2 : Nat) (hn : n1 = n2) (hbc : bc1 = bc2) (ht : tol1 = tol2)
    (hm : m1 = m2) : solve n1 bc1 tol1 m1 = solve n2 bc2 tol2 m2 := by
  subst hn hbc ht hm
  rfl

/-- Witness for C9 at a concrete input. -/
theorem c9_deterministic_witness : solve 3 bcZero 1 2 = solve 3 bcZero 1 2 :=
  c9_deterministic 3 3 bcZero bcZero 1 1 2 2 rfl rfl rfl rfl

/-- C10: the BoundaryMask is true only on the outermost rows and columns,
    it is false at every interior cell, and the solver equals the variant
    whose interior loop has the mask test removed. -/
theorem c10_interior_mask_vacuous (n : Nat) (bc : BC) (tol : ℚ)
    (maxIter : Nat) :
    (∀ i j, 1 ≤ i → i ≤ n-2 → 1 ≤ j → j ≤ n-2 →
      boundaryMask n bc i j = false) ∧
    (∀ i j, boundaryMask n bc i j = true →
      i = 0 ∨ i = n-1 ∨ j = 0 ∨ j = n-1) ∧
    solveFree n bc tol maxIter = solve n bc tol maxIter := by
  refine ⟨fun i j h1 h2 h3 h4 =>
    boundaryMask_interior_false n bc i j h1 h2 h3 h4, fun i j hm => ?_, ?_⟩
  · rw [boundaryMask_true_iff] at hm
    rcases hm with ⟨-, h, -⟩ | ⟨-, h, -⟩ | ⟨-, h, -⟩ | ⟨-, h, -⟩
    · exact Or.inl h
    · exact Or.inr (Or.inl h)
    · exact Or.inr (Or.inr (Or.inl h))
    · exact Or.inr (Or.inr (Or.inr h))
  · unfold solveFree solve
    rw [stepFree_eq_step]

/-- Witness for C10 at a concrete input. -/
theorem c10_interior_mask_vacuous_witness :
    solveFree 3 bcTopFive 1 3 = solve 3 bcTopFive 1 3 ∧
    boundaryMask 3 bcTopFive 1 1 = false := by
  have h := c10_interior_mask_vacuous 3 bcTopFive 1 3
  exact ⟨h.2.2, h.1 1 1 (by omega) (by omega) (by omega) (by omega)⟩

theorem condApply_pos {α : Type} (b : Prop) [Decidable b] (f : α → α) (x : α)
    (h : b) : condApply b f x = f x := by
  unfold condApply
  exact if_pos h

theorem neumannRowTop_hit (n : Nat) (v : ℚ) (g : Grid) (i j : Nat)
    (h : i = 0 ∧ 1 ≤ j ∧ j ≤ n-2) : neumannRowTop n v g i j = g 1 j + v := by
  unfold neumannRowTop
  exact if_pos h

theorem neumannRowBottom_hit (n : Nat) (v : ℚ) (g : Grid) (i j : Nat)
    (h : i = n-1 ∧ 1 ≤ j ∧ j ≤ n-2) :
    neumannRowBottom n v g i j = g (n-2) j - v := by
  unfold neumannRowBottom
  exact if_pos h

theorem neumannColLeft_hit (n : Nat) (v : ℚ) (g : Grid) (i j : Nat)
    (h : j = 0 ∧ 1 ≤ i ∧ i ≤ n-2) : neumannColLeft n v g i j = g i 1 + v := by
  unfold neumannColLeft
  exact if_pos h

theorem neumannColRight_hit (n : Nat) (v : ℚ) (g : Grid) (i j : Nat)
    (h : j = n-1 ∧ 1 ≤ i ∧ i ≤ n-2) :
    neumannColRight n v g i j = g i (n-2) - v := by
  unfold neumannColRight
  exact if_pos h

/-- C2: the solver declares convergence exactly when some iteration index k
    below the cap satisfies max_change below tolerance and k above 10; in
    that case iterations_run is k + 1 for such an index, so convergence is
    never declared before 12 completed iterations. -/
theorem c2_convergence_rule (n : Nat) (bc : BC) (tol : ℚ) (maxIter : Nat) :
    ((solve n bc tol maxIter).converged = true ↔
      ∃ k, k < maxIter ∧ 10 < k ∧ mcAt n bc k < tol) ∧
    ((solve n bc tol maxIter).converged = true →
      ∃ k, k < maxIter ∧ 10 < k ∧ mcAt n bc k < tol ∧
        (solve n bc tol maxIter).iterationsRun = k + 1) ∧
    ((solve n bc tol maxIter).converged = true →
      12 ≤ (solve n bc tol maxIter).iterationsRun) := by
  have hmc : ∀ k, mcAt n bc k =
      maxChange n ((step n bc (boundaryMask n bc))^[k+1] (initialGrid n bc))
        ((step n bc (boundaryMask n bc))^[k] (initialGrid n bc)) := by
    intro k
    rw [mcAt, iterGrid_eq_iterate, iterGrid_eq_iterate]
  obtain ⟨h1, h2⟩ := runLoop_conv n (step n bc (boundaryMask n bc)) tol
    (initialGrid n bc) maxIter 0 []
  rw [show (step n bc (boundaryMask n bc))^[0] (initialGrid n bc)
      = initialGrid n bc from rfl] at h1 h2
  unfold solve
  refine ⟨?_, ?_, ?_⟩
  · rw [h1]
    constructor
    · rintro ⟨k, -, hk2, hk3, hk4⟩
      exact ⟨k, by omega, hk3, by rw [hmc k]; exact hk4⟩
    · rintro ⟨k, hk1, hk2, hk3⟩
      rw [hmc k] at hk3
      exact ⟨k, by omega, by omega, hk2, hk3⟩
  · intro hc
    obtain ⟨k, -, hk2, hk3, hk4, hk5⟩ := h2 hc
    rw [← hmc k] at hk4
    exact ⟨k, by omega, hk3, hk4, hk5⟩
  · intro hc
    obtain ⟨k, -, -, hk3, -, hk5⟩ := h2 hc
    omega

set_option maxRecDepth 16000 in
/-- Witness for C2 at a concrete input: on a 2 by 2 grid nothing ever
    changes, so the run converges at iteration index 11 and reports 12
    iterations. -/
theorem c2_convergence_rule_witness :
    (solve 2 bcZero 1 20).converged = true ∧
    (solve 2 bcZero 1 20).iterationsRun = 12 := by
  refine ⟨(c2_convergence_rule 2 bcZero 1 20).1.mpr
    ⟨11, by omega, by omega, ?_⟩, by with_unfolding_all decide⟩
  with_unfolding_all decide

set_option maxRecDepth 8000 in
/-- C4 counterexample: with top Neumann gradient 1 on a 3 by 3 grid, the
    corner cell (0,0) of the top edge row is NOT set from the adjacent
    interior row of the post-Jacobi grid: the claim fails at the corners,
    because the source writes only the slice 1:-1 of the edge. -/
theorem c4_counterexample :
    ¬ (∀ j, j < 3 →
        step 3 bcTopNeu (boundaryMask 3 bcTopNeu) (initialGrid 3 bcTopNeu) 0 j =
          jacobiInterior 3 (boundaryMask 3 bcTopNeu) (initialGrid 3 bcTopNeu) 1 j
            + bcTopNeu.top.value) := by
  with_unfolding_all decide

/-- C4 amended: in every iteration, for each Neumann edge the NON-CORNER
    cells of that edge (indices 1 to n-2 along the edge) are set from the
    adjacent interior row or column of the new post-Jacobi grid, top and
    left adding the gradient and bottom and right subtracting it; the
    corner cells are excluded from every Neumann edge write and keep their
    value from the previous iteration grid. -/
theorem c4_neumann_edge_updates (n : Nat) (bc : BC) (u : Grid) (k : Nat)
    (h1 : 1 ≤ k) (h2 : k ≤ n-2) :
    (bc.top.kind = BCKind.neumann →
      step n bc (boundaryMask n bc) u 0 k =
        jacobiInterior n (boundaryMask n bc) u 1 k + bc.top.value) ∧
    (bc.bottom.kind = BCKind.neumann →
      step n bc (boundaryMask n bc) u (n-1) k =
        jacobiInterior n (boundaryMask n bc) u (n-2) k - bc.bottom.value) ∧
    (bc.left.kind = BCKind.neumann →
      step n bc (boundaryMask n bc) u k 0 =
        jacobiInterior n (boundaryMask n bc) u k 1 + bc.left.value) ∧
    (bc.right.kind = BCKind.neumann →
      step n bc (boundaryMask n bc) u k (n-1) =
        jacobiInterior n (boundaryMask n bc) u k (n-2) - bc.right.value) ∧
    step n bc (boundaryMask n bc) u 0 0 = u 0 0 ∧
    step n bc (boundaryMask n bc) u 0 (n-1) = u 0 (n-1) ∧
    step n bc (boundaryMask n bc) u (n-1) 0 = u (n-1) 0 ∧
    step n bc (boundaryMask n bc) u (n-1) (n-1) = u (n-1) (n-1) := by
  refine ⟨fun hT => ?_, fun hB => ?_, fun hL => ?_, fun hR => ?_,
    step_corner n bc _ u 0 0 (Or.inl rfl) (Or.inl rfl),
    step_corner n bc _ u 0 (n-1) (Or.inl rfl) (Or.inr rfl),
    step_corner n bc _ u (n-1) 0 (Or.inr rfl) (Or.inl rfl),
    step_corner n bc _ u (n-1) (n-1) (Or.inr rfl) (Or.inr rfl)⟩
  · unfold step applyNeumann
    rw [condApply_point _ _ _ 0 k (fun _ => neumannColRight_skip n _ _ 0 k (by omega)),
        condApply_point _ _ _ 0 k (fun _ => neumannColLeft_skip n _ _ 0 k (by omega)),
        condApply_point _ _ _ 0 k (fun _ => neumannRowBottom_skip n _ _ 0 k (by omega)),
        condApply_pos _ _ _ hT]
    exact neumannRowTop_hit n _ _ 0 k ⟨rfl, h1, h2⟩
  · unfold step applyNeumann
    rw [condApply_point _ _ _ (n-1) k (fun _ => neumannColRight_skip n _ _ (n-1) k (by omega)),
        condApply_point _ _ _ (n-1) k (fun _ => neumannColLeft_skip n _ _ (n-1) k (by omega)),
        condApply_pos _ _ _ hB,
        neumannRowBottom_hit n _ _ (n-1) k ⟨rfl, h1, h2⟩,
        condApply_point _ _ _ (n-2) k (fun _ => neumannRowTop_skip n _ _ (n-2) k (by omega))]
  · unfold step applyNeumann
    rw [condApply_point _ _ _ k 0 (fun _ => neumannColRight_skip n _ _ k 0 (by omega)),
        condApply_pos _ _ _ hL,
        neumannColLeft_hit n _ _ k 0 ⟨rfl, h1, h2⟩,
        condApply_point _ _ _ k 1 (fun _ => neumannRowBottom_skip n _ _ k 1 (by omega)),
        condApply_point _ _ _ k 1 (fun _ => neumannRowTop_skip n _ _ k 1 (by omega))]
  · unfold step applyNeumann
    rw [condApply_pos _ _ _ hR,
        neumannColRight_hit n _ _ k (n-1) ⟨rfl, h1, h2⟩,
        condApply_point _ _ _ k (n-2) (fun _ => neumannColLeft_skip n _ _ k (n-2) (by omega)),
        condApply_point _ _ _ k (n-2) (fun _ => neumannRowBottom_skip n _ _ k (n-2) (by omega)),
        condApply_point _ _ _ k (n-2) (fun _ => neumannRowTop_skip n _ _ k (n-2) (by omega))]

/-- Witness for C4 at a concrete input: with all four edges Neumann on a
    3 by 3 grid, the top edge cell (0,1) equals the post-Jacobi value below
    it plus the top gradient. -/
theorem c4_neumann_edge_updates_witness :
    step 3 bcAllNeu (boundaryMask 3 bcAllNeu) gEx 0 1 =
      jacobiInterior 3 (boundaryMask 3 bcAllNeu) gEx 1 1 + bcAllNeu.top.value :=
  (c4_neumann_edge_updates 3 bcAllNeu gEx 1 (by omega) (by omega)).1 rfl

set_option maxRecDepth 8000 in
/-- C5 counterexample: top Neumann 1 and left Neumann 2 share corner (0,0)
    of a 3 by 3 grid; after one iteration the corner does NOT hold the
    later (left) edge update value u_new[0,1] + 2, refuting the claimed
    overwrite-by-the-second-edge semantics. -/
theorem c5_counterexample :
    step 3 bcTopLeftNeu (boundaryMask 3 bcTopLeftNeu)
        (initialGrid 3 bcTopLeftNeu) 0 0 ≠
      step 3 bcTopLeftNeu (boundaryMask 3 bcTopLeftNeu)
        (initialGrid 3 bcTopLeftNeu) 0 1 + bcTopLeftNeu.left.value := by
  with_unfolding_all decide

/-- C5 amended: a corner cell shared by two Neumann edges is written by
    NEITHER edge update, because each edge write covers only indices 1 to
    n-2 along the edge; the corner keeps its value from the previous
    iteration grid. -/
theorem c5_corner_not_overwritten (n : Nat) (bc : BC) (u : Grid) :
    (bc.top.kind = BCKind.neumann → bc.left.kind = BCKind.neumann →
      step n bc (boundaryMask n bc) u 0 0 = u 0 0) ∧
    (bc.top.kind = BCKind.neumann → bc.right.kind = BCKind.neumann →
      step n bc (boundaryMask n bc) u 0 (n-1) = u 0 (n-1)) ∧
    (bc.bottom.kind = BCKind.neumann → bc.left.kind = BCKind.neumann →
      step n bc (boundaryMask n bc) u (n-1) 0 = u (n-1) 0) ∧
    (bc.bottom.kind = BCKind.neumann → bc.right.kind = BCKind.neumann →
      step n bc (boundaryMask n bc) u (n-1) (n-1) = u (n-1) (n-1)) := by
  refine ⟨fun _ _ => ?_, fun _ _ => ?_, fun _ _ => ?_, fun _ _ => ?_⟩
  · exact step_corner n bc _ u 0 0 (Or.inl rfl) (Or.inl rfl)
  · exact step_corner n bc _ u 0 (n-1) (Or.inl rfl) (Or.inr rfl)
  · exact step_corner n bc _ u (n-1) 0 (Or.inr rfl) (Or.inl rfl)
  · exact step_corner n bc _ u (n-1) (n-1) (Or.inr rfl) (Or.inr rfl)

/-- Witness for C5 at a concrete input. -/
theorem c5_corner_not_overwritten_witness :
    step 3 bcTopLeftNeu (boundaryMask 3 bcTopLeftNeu) gEx 0 0 = gEx 0 0 :=
  (c5_corner_not_overwritten 3 bcTopLeftNeu gEx).1 rfl rfl

set_option maxRecDepth 8000 in
/-- C6 counterexample: with grid_size 2 (below 3) and negative tolerance
    the solver raises nothing and does not stop before the iterations: it
    runs all five requested iterations and records five history entries,
    contradicting a synchronous invalid-configuration failure raised before
    any iteration begins. -/
theorem c6_counterexample :
    (solve 2 bcTopFive (-1) 5).history.length = 5 ∧
    (solve 2 bcTopFive (-1) 5).history ≠ [] ∧
    (solve 2 bcTopFive (-1) 5).converged = false := by
  refine ⟨?_, ?_, ?_⟩ <;> with_unfolding_all decide

/-- C6 amended: for positive grid sizes the solver performs no
    configuration validation and raises nothing: with non-positive
    tolerance it never converges and runs exactly max_iterations
    iterations; with max_iterations 0 the loop body never executes; with
    grid size 1 or 2 no cell is ever modified, so the final grid is the
    stamped initial grid.  Grid size 0 is outside this model: there the
    program dies of an uncaught IndexError or ValueError on the empty
    numpy array, not of the claimed InvalidConfiguration. -/
theorem c6_no_validation_runs_anyway (n : Nat) (bc : BC) (tol : ℚ)
    (maxIter : Nat) (_hn1 : 1 ≤ n) :
    (tol ≤ 0 → (solve n bc tol maxIter).converged = false ∧
      (solve n bc tol maxIter).iterationsRun = maxIter) ∧
    (maxIter = 0 → (solve n bc tol maxIter).history = [] ∧
      (solve n bc tol maxIter).iterationsRun = 0) ∧
    (n < 3 → ∀ i j, (solve n bc tol maxIter).grid i j = initialGrid n bc i j) := by
  refine ⟨fun htol => ?_, fun hmx => ?_, fun hn i j => ?_⟩
  · have hconv : (solve n bc tol maxIter).converged = false := by
      rw [Bool.eq_false_iff]
      intro hc
      unfold solve at hc
      obtain ⟨hiff, -⟩ := runLoop_conv n (step n bc (boundaryMask n bc)) tol
        (initialGrid n bc) maxIter 0 []
      rw [show (step n bc (boundaryMask n bc))^[0] (initialGrid n bc)
          = initialGrid n bc from rfl] at hiff
      obtain ⟨k, -, -, -, hk⟩ := hiff.mp hc
      exact absurd hk (not_lt.mpr (le_trans htol (maxChange_nonneg n _ _)))
    refine ⟨hconv, ?_⟩
    unfold solve at hconv ⊢
    obtain ⟨-, -, h3, -⟩ := runLoop_count n (step n bc (boundaryMask n bc)) tol
      maxIter 0 (initialGrid n bc) []
    have := h3 hconv
    omega
  · subst hmx
    exact ⟨rfl, rfl⟩
  · unfold solve
    exact runLoop_grid_invariant n _ tol (fun g => g i j = initialGrid n bc i j)
      (fun g hg => by
        show step n bc (boundaryMask n bc) g i j = initialGrid n bc i j
        rw [step_small n bc _ g i j hn]
        exact hg) maxIter 0 _ [] rfl

/-- Witness for C6 at a concrete input. -/
theorem c6_no_validation_runs_anyway_witness :
    (solve 2 bcTopFive (-1) 5).converged = false ∧
    (solve 2 bcTopFive (-1) 5).iterationsRun = 5 :=
  (c6_no_validation_runs_anyway 2 bcTopFive (-1) 5 (by omega)).1 (by norm_num)

set_option maxRecDepth 16000 in
/-- C7 counterexample: with all four edges Dirichlet 4, the first sweep has
    max_change 4, not 0, on a 3 by 3 grid; and on a 4 by 4 grid the field
    is not uniformly 4 after the first sweep. -/
theorem c7_counterexample :
    mcAt 3 bcFour 0 ≠ 0 ∧ iterGrid 4 bcFour 1 1 1 ≠ 4 := by
  refine ⟨?_, ?_⟩ <;> with_unfolding_all decide

/-- C7 amended: with all four edges Dirichlet at the same value V and grid
    size 3 the field is uniformly V everywhere immediately after the first
    full sweep, and the next sweep has max_change 0 (uniform V is a fixed
    point); but the FIRST sweep has max_change equal to the absolute value
    of V, which is nonzero whenever V is, and for larger grids the first
    sweep does not yet produce the uniform field. -/
theorem c7_uniform_dirichlet (V : ℚ) :
    (∀ i j, i < 3 → j < 3 → iterGrid 3 (bcAllD V) 1 i j = V) ∧
    mcAt 3 (bcAllD V) 1 = 0 ∧
    mcAt 3 (bcAllD V) 0 = |V| := by
  have hinit : ∀ i j, i < 3 → j < 3 →
      initialGrid 3 (bcAllD V) i j = if i = 1 ∧ j = 1 then 0 else V := by
    intro i j hi hj
    interval_cases i <;> interval_cases j <;>
      simp [initialGrid, bcAllD, condApply, setRow, setCol, zeroGrid]
  have hmask : ∀ i j, i < 3 → j < 3 → ¬(i = 1 ∧ j = 1) →
      boundaryMask 3 (bcAllD V) i j = true := by
    intro i j hi hj hc
    rw [boundaryMask_true_iff]
    simp only [bcAllD]
    simp only [true_and, eq_self_iff_true]
    omega
  have h1 : ∀ i j, i < 3 → j < 3 → iterGrid 3 (bcAllD V) 1 i j = V := by
    intro i j hi hj
    show step 3 (bcAllD V) (boundaryMask 3 (bcAllD V))
      (initialGrid 3 (bcAllD V)) i j = V
    by_cases hc : i = 1 ∧ j = 1
    · obtain ⟨rfl, rfl⟩ := hc
      have hm := boundaryMask_interior_false 3 (bcAllD V) 1 1
        (by omega) (by omega) (by omega) (by omega)
      rw [step_interior 3 _ _ 1 1 (by omega) (by omega) (by omega) (by omega),
        hm, if_neg (by simp),
        hinit 2 1 (by omega) (by omega), hinit 0 1 (by omega) (by omega),
        hinit 1 2 (by omega) (by omega), hinit 1 0 (by omega) (by omega)]
      norm_num
      ring
    · rw [step_masked 3 _ _ i j (hmask i j hi hj hc), hinit i j hi hj,
        if_neg hc]
  have hkey : ∀ (u : Grid), (∀ i j, i < 3 → j < 3 → u i j = V) →
      ∀ i j, i < 3 → j < 3 →
        step 3 (bcAllD V) (boundaryMask 3 (bcAllD V)) u i j = V := by
    intro u hu i j hi hj
    by_cases hc : i = 1 ∧ j = 1
    · obtain ⟨rfl, rfl⟩ := hc
      have hm := boundaryMask_interior_false 3 (bcAllD V) 1 1
        (by omega) (by omega) (by omega) (by omega)
      rw [step_interior 3 _ u 1 1 (by omega) (by omega) (by omega) (by omega),
        hm, if_neg (by simp),
        hu 2 1 (by omega) (by omega), hu 0 1 (by omega) (by omega),
        hu 1 2 (by omega) (by omega), hu 1 0 (by omega) (by omega)]
      ring
    · rw [step_masked 3 _ u i j (hmask i j hi hj hc), hu i j hi hj]
  have h2 : ∀ i j, i < 3 → j < 3 → iterGrid 3 (bcAllD V) 2 i j = V := by
    intro i j hi hj
    show step 3 (bcAllD V) (boundaryMask 3 (bcAllD V))
      (iterGrid 3 (bcAllD V) 1) i j = V
    exact hkey _ h1 i j hi hj
  refine ⟨h1, ?_, ?_⟩
  · exact maxChange_eq_zero 3 _ _
      (fun i j hi hj => by rw [h2 i j hi hj, h1 i j hi hj])
  · have e0 : iterGrid 3 (bcAllD V) 0 1 1 = (0:ℚ) := by
      show initialGrid 3 (bcAllD V) 1 1 = 0
      rw [hinit 1 1 (by omega) (by omega), if_pos ⟨rfl, rfl⟩]
    apply le_antisymm
    · apply maxChange_le 3 _ _ _ (abs_nonneg V)
      intro i j hi hj
      by_cases hc : i = 1 ∧ j = 1
      · obtain ⟨rfl, rfl⟩ := hc
        rw [h1 1 1 (by omega) (by omega), e0, sub_zero]
      · rw [h1 i j hi hj]
        show |V - initialGrid 3 (bcAllD V) i j| ≤ |V|
        rw [hinit i j hi hj, if_neg hc, sub_self, abs_zero]
        exact abs_nonneg V
    · have h := le_maxChange 3 (iterGrid 3 (bcAllD V) 1)
        (iterGrid 3 (bcAllD V) 0) 1 1 (by omega) (by omega)
      rw [h1 1 1 (by omega) (by omega), e0, sub_zero] at h
      exact h

/-- Witness for C7 at a concrete input: V = 7. -/
theorem c7_uniform_dirichlet_witness :
    iterGrid 3 (bcAllD 7) 1 1 1 = 7 ∧ mcAt 3 (bcAllD 7) 1 = 0 ∧
    mcAt 3 (bcAllD 7) 0 = 7 := by
  obtain ⟨h1, h2, h3⟩ := c7_uniform_dirichlet 7
  refine ⟨h1 1 1 (by omega) (by omega), h2, ?_⟩
  rw [h3]
  norm_num

end LaplaceViz
